import Mathlib

/-!
Shallow embedding of `visualize_graph.py` (RoadNetOptimizer): an interactive
path visualizer that parses "Path: A -> B -> C" route strings, lays the nodes
out on a line or in a multi-row "snake", and renders/saves an HTML figure.

Python strings are modelled as `List Char` (`PyStr`), Python dicts keyed by
node label as association lists with update-in-place-or-append semantics
(`PyDict`), Python floats as rationals, Python ints as `Int` (loop indices,
which are nonnegative, as `Nat`), and the I/O of the interactive flow as pure
functions over an explicit world record plus a list of operator input lines.
-/

namespace RoadNet

abbrev PyStr := List Char

/-- Whitespace characters stripped by Python's `str.strip()` (ASCII range). -/
def isPySpace (c : Char) : Bool :=
  c.toNat = 32 || c.toNat = 9 || c.toNat = 10 || c.toNat = 13 ||
  c.toNat = 11 || c.toNat = 12

/-- Left part of Python `str.strip()`: drop leading whitespace. -/
def stripLeft (s : PyStr) : PyStr := s.dropWhile isPySpace

/-- Right part of Python `str.strip()`: drop trailing whitespace. -/
def stripRight (s : PyStr) : PyStr := (s.reverse.dropWhile isPySpace).reverse

/-- Python `str.strip()`: drop whitespace from both ends. -/
def pyStrip (s : PyStr) : PyStr := stripLeft (stripRight s)

/-- Python `str.lower()` (ASCII letters, which is all the program compares). -/
def pyLower (s : PyStr) : PyStr := s.map Char.toLower

/-- Does the string contain the arrow token "->" as a substring? -/
def hasArrow : PyStr → Bool
  | [] => false
  | c :: rest => (c == '-' && rest.head? == some '>') || hasArrow rest

/-- Python `s.split("->")`: split on each non-overlapping occurrence of the
two-character arrow token, scanning left to right. -/
def splitArrow : PyStr → List PyStr
  | [] => [[]]
  | [c] => [[c]]
  | c₁ :: c₂ :: rest =>
    if c₁ == '-' && c₂ == '>' then [] :: splitArrow rest
    else
      match splitArrow (c₂ :: rest) with
      | [] => [[c₁]]
      | h :: t => (c₁ :: h) :: t

/-- Function `extract_nodes` from `visualize_graph.py`: strip the line, strip a
case-insensitive "Path:" marker at the start, split on "->", strip each part,
and keep the nonempty parts. -/
def extract_nodes (path_line : PyStr) : List PyStr :=
  let s := pyStrip path_line
  let s := if (pyLower s).take 5 = "path:".toList then pyStrip (s.drop 5) else s
  ((splitArrow s).map pyStrip).filter (fun p => !p.isEmpty)

/-- Joins tokens after the first with a bare "->" separator; together with
`pathLine` this generates every line of the form "Path: a -> b -> c", the
tokens carrying whatever whitespace padding surrounds them. -/
def joinArrowTail : List PyStr → PyStr
  | [] => []
  | t :: ts => ('-' :: '>' :: t) ++ joinArrowTail ts

/-- A route line "Path:<t><-><t₁><->...": the "Path:" marker followed by the
tokens joined by the arrow token. -/
def pathLine (t : PyStr) (ts : List PyStr) : PyStr :=
  "Path:".toList ++ (t ++ joinArrowTail ts)

/-- Apply a function to the last element of a list, keeping the rest. -/
def mapLastStr (f : PyStr → PyStr) : List PyStr → List PyStr
  | [] => []
  | [a] => [f a]
  | a :: b :: r => a :: mapLastStr f (b :: r)

theorem dropWhile_idem (p : Char → Bool) (l : PyStr) :
    (l.dropWhile p).dropWhile p = l.dropWhile p := by
  induction l with
  | nil => rfl
  | cons c t ih =>
    by_cases h : p c
    · simpa [List.dropWhile_cons, h] using ih
    · simp [List.dropWhile_cons, h]

theorem stripLeft_cons_of_nonspace {c : Char} (hc : isPySpace c = false) (s : PyStr) :
    stripLeft (c :: s) = c :: s := by
  simp [stripLeft, List.dropWhile_cons, hc]

theorem stripRight_eq_nil_of (s : PyStr) (h : (s.reverse.dropWhile isPySpace).isEmpty) :
    stripRight s = [] := by
  simp only [stripRight]
  rw [List.isEmpty_iff.mp h]
  rfl

theorem stripRight_append_nonspace (a b : PyStr) (c : Char) (hc : isPySpace c = false) :
    stripRight ((a ++ [c]) ++ b) = (a ++ [c]) ++ stripRight b := by
  simp only [stripRight, List.reverse_append, List.reverse_cons, List.reverse_nil,
    List.nil_append, List.singleton_append]
  rw [List.dropWhile_append]
  by_cases h : (b.reverse.dropWhile isPySpace).isEmpty
  · rw [if_pos h, List.dropWhile_cons, hc]
    simp [List.isEmpty_iff.mp h]
  · rw [if_neg h]
    simp

theorem stripLeft_append_of_self (a b : PyStr) (hb : b.dropWhile isPySpace = b) :
    stripLeft (a ++ b) = stripLeft a ++ b := by
  simp only [stripLeft]
  rw [List.dropWhile_append]
  by_cases h : (a.dropWhile isPySpace).isEmpty
  · rw [if_pos h, hb, List.isEmpty_iff.mp h, List.nil_append]
  · rw [if_neg h]

theorem stripRight_idem (s : PyStr) : stripRight (stripRight s) = stripRight s := by
  simp only [stripRight, List.reverse_reverse]
  rw [dropWhile_idem]

theorem pyStrip_stripRight (s : PyStr) : pyStrip (stripRight s) = pyStrip s := by
  simp only [pyStrip]
  rw [stripRight_idem]

theorem stripLeft_allspace_append (w y : PyStr) (hw : ∀ c ∈ w, isPySpace c) :
    stripLeft (w ++ y) = stripLeft y := by
  simp only [stripLeft]
  exact List.dropWhile_append_of_pos hw

theorem pyStrip_stripLeft (s : PyStr) : pyStrip (stripLeft s) = pyStrip s := by
  have hdecomp : s = s.takeWhile isPySpace ++ stripLeft s := by
    simp [stripLeft, List.takeWhile_append_dropWhile]
  by_cases hm : stripLeft s = []
  · rw [hm]
    conv_rhs => rw [hdecomp, hm, List.append_nil]
    have hall : ∀ c ∈ s.takeWhile isPySpace, isPySpace c := fun c hc =>
      List.mem_takeWhile_imp hc
    simp only [pyStrip, stripRight, List.reverse_nil, List.dropWhile_nil]
    have : (s.takeWhile isPySpace).reverse.dropWhile isPySpace = [] := by
      rw [List.dropWhile_eq_nil_iff]
      intro x hx
      exact hall x (List.mem_reverse.mp hx)
    rw [this]
    rfl
  · -- the stripped middle part starts with a non-space character
    conv_rhs => rw [hdecomp]
    simp only [pyStrip]
    have hall : ∀ c ∈ s.takeWhile isPySpace, isPySpace c := fun c hc =>
      List.mem_takeWhile_imp hc
    -- stripRight (w ++ m) = w ++ stripRight m, since stripRight m ≠ []
    have hsrm : stripRight (stripLeft s) ≠ [] := by
      intro hcon
      apply hm
      obtain ⟨c, m', hcm⟩ : ∃ c m', stripLeft s = c :: m' := by
        cases h' : stripLeft s with
        | nil => exact absurd h' hm
        | cons c m' => exact ⟨c, m', rfl⟩
      have hcns : isPySpace c = false := by
        have := dropWhile_idem isPySpace s
        rw [show s.dropWhile isPySpace = stripLeft s from rfl, hcm] at this
        by_contra hcs
        have hct : isPySpace c = true := by simpa using hcs
        rw [List.dropWhile_cons, if_pos hct] at this
        have hlen := congrArg List.length this
        have hle : (List.dropWhile isPySpace m').length ≤ m'.length :=
          (List.dropWhile_sublist (l := m') isPySpace).length_le
        simp at hlen
        omega
      have : c ∈ stripRight (stripLeft s) := by
        simp only [stripRight, hcm, List.reverse_cons]
        have : c ∈ (m'.reverse ++ [c]).dropWhile isPySpace := by
          rw [List.dropWhile_append]
          by_cases h2 : ((m'.reverse).dropWhile isPySpace).isEmpty
          · rw [if_pos h2, List.dropWhile_cons, hcns]
            simp
          · rw [if_neg h2]
            simp
        rw [List.mem_reverse]
        exact this
      rw [hcon] at this
      exact absurd this (List.not_mem_nil c)
    have hsr : stripRight (s.takeWhile isPySpace ++ stripLeft s) =
        s.takeWhile isPySpace ++ stripRight (stripLeft s) := by
      simp only [stripRight, List.reverse_append]
      rw [List.dropWhile_append]
      have hne : ¬((stripLeft s).reverse.dropWhile isPySpace).isEmpty := by
        intro hcon
        exact hsrm (stripRight_eq_nil_of _ hcon)
      rw [if_neg hne]
      simp [stripRight]
    rw [hsr, stripLeft_allspace_append _ _ hall]

theorem pyStrip_idem (s : PyStr) : pyStrip (pyStrip s) = pyStrip s := by
  simp only [pyStrip]
  rw [show stripLeft (stripRight s) = pyStrip s from rfl, ← pyStrip_stripRight s,
    show pyStrip (stripRight s) = stripLeft (stripRight (stripRight s)) from rfl,
    stripRight_idem]
  have := pyStrip_stripLeft (stripRight s)
  simpa [pyStrip, stripRight_idem] using this

theorem splitArrow_ne_nil : ∀ s : PyStr, splitArrow s ≠ []
  | [] => by simp [splitArrow]
  | [c] => by simp [splitArrow]
  | c₁ :: c₂ :: rest => by
    simp only [splitArrow]
    by_cases h : (c₁ == '-' && c₂ == '>') = true
    · simp [h]
    · rw [if_neg h]
      cases hs : splitArrow (c₂ :: rest) with
      | nil => simp
      | cons a l => simp

theorem hasArrow_cons (c : Char) (s : PyStr) :
    hasArrow (c :: s) = ((c == '-' && s.head? == some '>') || hasArrow s) := rfl

theorem hasArrow_append_false {a b : PyStr} (h : hasArrow (a ++ b) = false) :
    hasArrow a = false ∧ hasArrow b = false := by
  induction a with
  | nil => exact ⟨rfl, by simpa using h⟩
  | cons c a' ih =>
    rw [List.cons_append, hasArrow_cons, Bool.or_eq_false_iff] at h
    obtain ⟨h1, h2⟩ := h
    obtain ⟨ha', hb⟩ := ih h2
    refine ⟨?_, hb⟩
    rw [hasArrow_cons, Bool.or_eq_false_iff]
    refine ⟨?_, ha'⟩
    cases a' with
    | nil => simp
    | cons d r => simpa using h1

theorem hasArrow_stripLeft {s : PyStr} (h : hasArrow s = false) :
    hasArrow (stripLeft s) = false := by
  have hdecomp : s = s.takeWhile isPySpace ++ stripLeft s := by
    simp [stripLeft, List.takeWhile_append_dropWhile]
  rw [hdecomp] at h
  exact (hasArrow_append_false h).2

theorem stripRight_decomp (s : PyStr) :
    s = stripRight s ++ (s.reverse.takeWhile isPySpace).reverse := by
  conv_lhs => rw [← List.reverse_reverse s,
    ← List.takeWhile_append_dropWhile (p := isPySpace) (l := s.reverse)]
  rw [List.reverse_append]
  rfl

theorem hasArrow_stripRight {s : PyStr} (h : hasArrow s = false) :
    hasArrow (stripRight s) = false := by
  rw [stripRight_decomp s] at h
  exact (hasArrow_append_false h).1

theorem hasArrow_pyStrip {s : PyStr} (h : hasArrow s = false) :
    hasArrow (pyStrip s) = false :=
  hasArrow_stripLeft (hasArrow_stripRight h)

theorem splitArrow_of_arrowFree : ∀ s : PyStr, hasArrow s = false → splitArrow s = [s]
  | [], _ => rfl
  | [c], _ => rfl
  | c₁ :: c₂ :: rest, h => by
    rw [hasArrow_cons, Bool.or_eq_false_iff] at h
    have h' : hasArrow (c₂ :: rest) = false := h.2
    have hcond : (c₁ == '-' && c₂ == '>') = false := by simpa using h.1
    simp only [splitArrow]
    rw [if_neg (by simp [hcond]), splitArrow_of_arrowFree (c₂ :: rest) h']

theorem splitArrow_append_arrow : ∀ (a rest : PyStr), hasArrow a = false →
    splitArrow (a ++ '-' :: '>' :: rest) = a :: splitArrow rest
  | [], rest, _ => by simp [splitArrow]
  | [c], rest, h => by
    simp only [List.cons_append, List.nil_append, splitArrow]
    rw [if_neg (by simp)]
    simp
  | c₁ :: c₂ :: a', rest, h => by
    rw [hasArrow_cons, Bool.or_eq_false_iff] at h
    have h2 : hasArrow (c₂ :: a') = false := h.2
    have hcond : (c₁ == '-' && c₂ == '>') = false := by simpa using h.1
    have ih := splitArrow_append_arrow (c₂ :: a') rest h2
    simp only [List.cons_append] at ih ⊢
    simp only [splitArrow]
    rw [if_neg (by simp [hcond]), ih]

theorem splitArrow_join : ∀ (ts : List PyStr) (t : PyStr), hasArrow t = false →
    (∀ u ∈ ts, hasArrow u = false) →
    splitArrow (t ++ joinArrowTail ts) = t :: ts
  | [], t, ht, _ => by simp [joinArrowTail, splitArrow_of_arrowFree t ht]
  | u :: us, t, ht, hts => by
    have hu : hasArrow u = false := hts u (by simp)
    have hus : ∀ v ∈ us, hasArrow v = false := fun v hv => hts v (by simp [hv])
    have ih := splitArrow_join us u hu hus
    simp only [joinArrowTail]
    rw [show t ++ (('-' :: '>' :: u) ++ joinArrowTail us) =
      t ++ '-' :: '>' :: (u ++ joinArrowTail us) from by simp]
    rw [splitArrow_append_arrow t _ ht, ih]

theorem mapLastStr_ne_nil (f : PyStr → PyStr) :
    ∀ l : List PyStr, l ≠ [] → mapLastStr f l ≠ []
  | [], h => absurd rfl h
  | [a], _ => by simp [mapLastStr]
  | a :: b :: r, _ => by simp [mapLastStr]

theorem stripRight_join : ∀ (ts : List PyStr) (t : PyStr), ts ≠ [] →
    stripRight (t ++ joinArrowTail ts) = t ++ joinArrowTail (mapLastStr stripRight ts)
  | [], _, hne => absurd rfl hne
  | [u], t, _ => by
    simp only [joinArrowTail, mapLastStr, List.append_nil]
    rw [show t ++ ('-' :: '>' :: u) = ((t ++ ['-']) ++ ['>']) ++ u from by simp]
    rw [stripRight_append_nonspace (t ++ ['-']) u '>' (by decide)]
    simp
  | u :: v :: r, t, _ => by
    have ih := stripRight_join (v :: r) u (by simp)
    simp only [joinArrowTail, mapLastStr] at ih ⊢
    rw [show t ++ ('-' :: '>' :: u ++ ('-' :: '>' :: v ++ joinArrowTail r)) =
      ((t ++ ['-']) ++ ['>']) ++ (u ++ ('-' :: '>' :: v ++ joinArrowTail r)) from by simp]
    rw [stripRight_append_nonspace (t ++ ['-']) _ '>' (by decide), ih]
    simp

theorem stripLeft_append_join (t : PyStr) (ts : List PyStr) (hne : ts ≠ []) :
    stripLeft (t ++ joinArrowTail ts) = stripLeft t ++ joinArrowTail ts := by
  apply stripLeft_append_of_self
  cases ts with
  | nil => exact absurd rfl hne
  | cons u us =>
    have hd : isPySpace '-' = false := by decide
    simp [joinArrowTail, List.dropWhile_cons, hd]

theorem mapLastStr_arrowFree {f : PyStr → PyStr}
    (hf : ∀ s, hasArrow s = false → hasArrow (f s) = false) :
    ∀ l : List PyStr, (∀ u ∈ l, hasArrow u = false) →
      ∀ v ∈ mapLastStr f l, hasArrow v = false
  | [], _, v, hv => by simp [mapLastStr] at hv
  | [a], h, v, hv => by
    simp only [mapLastStr, List.mem_singleton] at hv
    subst hv
    exact hf a (h a (by simp))
  | a :: b :: r, h, v, hv => by
    simp only [mapLastStr, List.mem_cons] at hv
    rcases hv with rfl | hv
    · exact h v (by simp)
    · exact mapLastStr_arrowFree hf (b :: r) (fun u hu => h u (by simp [hu])) v
        (by simpa [mapLastStr] using hv)

theorem map_pyStrip_mapLastStr : ∀ l : List PyStr,
    (mapLastStr stripRight l).map pyStrip = l.map pyStrip
  | [] => rfl
  | [a] => by simp [mapLastStr, pyStrip_stripRight]
  | a :: b :: r => by
    simp only [mapLastStr, List.map_cons]
    rw [show (mapLastStr stripRight (b :: r)).map pyStrip = (b :: r).map pyStrip from
      map_pyStrip_mapLastStr (b :: r)]
    simp

theorem toLower_cases (c : Char) :
    c.toLower = c ∨ (65 ≤ c.toNat ∧ c.toNat ≤ 90 ∧ c.toLower.toNat = c.toNat + 32) := by
  by_cases h : c.toNat ≥ 65 ∧ c.toNat ≤ 90
  · right
    refine ⟨h.1, h.2, ?_⟩
    rw [Char.toLower, if_pos h, Char.toNat, Char.ofNat, dif_pos]
    · rfl
    · constructor
      omega
  · left
    rw [Char.toLower, if_neg h]

theorem eq_colon_of_toLower {c : Char} (h : c.toLower = ':') : c = ':' := by
  rcases toLower_cases c with h' | ⟨h1, h2, h3⟩
  · rw [← h', h]
  · exfalso
    rw [h] at h3
    have hcol : (':' : Char).toNat = 58 := rfl
    omega

theorem nonspace_of_toLower_p {c : Char} (h : c.toLower = 'p') : isPySpace c = false := by
  rcases toLower_cases c with h' | ⟨h1, h2, h3⟩
  · have hc : c = 'p' := by rw [← h', h]
    subst hc
    decide
  · simp only [isPySpace, Bool.or_eq_false_iff, decide_eq_false_iff_not]
    omega

/-- Claim C2 core: on any line of the form "<marker><t1> -> <t2> -> ... ->
<tk>", where the marker is any five characters that lowercase to "path:"
(the case-insensitive prefix) and the tokens carry arbitrary whitespace
padding but no arrow token, `extract_nodes` returns the stripped tokens, in
order, with empty tokens discarded. -/
theorem extract_nodes_pathLine (p t : PyStr) (ts : List PyStr)
    (hp : pyLower p = "path:".toList)
    (ht : hasArrow t = false) (hts : ∀ u ∈ ts, hasArrow u = false) :
    extract_nodes (p ++ (t ++ joinArrowTail ts)) =
      ((t :: ts).map pyStrip).filter (fun p => !p.isEmpty) := by
  have hplen : p.length = 5 := by
    have := congrArg List.length hp
    simpa [pyLower] using this
  obtain ⟨c1, c2, c3, c4, c5, rfl⟩ :
      ∃ c1 c2 c3 c4 c5, p = [c1, c2, c3, c4, c5] := by
    rcases p with _ | ⟨c1, _ | ⟨c2, _ | ⟨c3, _ | ⟨c4, _ | ⟨c5, _ | ⟨c6, p'⟩⟩⟩⟩⟩⟩ <;>
      simp at hplen
    exact ⟨c1, c2, c3, c4, c5, rfl⟩
  simp only [pyLower, List.map_cons, List.map_nil] at hp
  have hp1 : c1.toLower = 'p' := (List.cons.injEq _ _ _ _ ▸ hp).1
  have hp5 : c5.toLower = ':' := by
    simpa using congrArg (fun l => l.get? 4) hp
  have hc5 : c5 = ':' := eq_colon_of_toLower hp5
  subst hc5
  have hline : pyStrip ([c1, c2, c3, c4, ':'] ++ (t ++ joinArrowTail ts)) =
      [c1, c2, c3, c4, ':'] ++ stripRight (t ++ joinArrowTail ts) := by
    simp only [pyStrip]
    rw [show [c1, c2, c3, c4, ':'] ++ (t ++ joinArrowTail ts) =
      (([c1, c2, c3, c4] ++ [':']) ++ (t ++ joinArrowTail ts)) from by simp]
    rw [stripRight_append_nonspace [c1, c2, c3, c4] _ ':' (by decide)]
    rw [show ([c1, c2, c3, c4] ++ [':']) ++ stripRight (t ++ joinArrowTail ts) =
      c1 :: ([c2, c3, c4, ':'] ++ stripRight (t ++ joinArrowTail ts)) from by simp]
    rw [stripLeft_cons_of_nonspace (nonspace_of_toLower_p hp1)]
    simp
  simp only [extract_nodes]
  rw [hline]
  have hlow : (pyLower ([c1, c2, c3, c4, ':'] ++
      stripRight (t ++ joinArrowTail ts))).take 5 = "path:".toList := by
    simp only [pyLower, List.map_append]
    rw [List.take_left' (by simp)]
    exact hp
  rw [if_pos hlow, List.drop_left' (by simp), pyStrip_stripRight]
  cases ts with
  | nil =>
    simp only [joinArrowTail, List.append_nil]
    rw [splitArrow_of_arrowFree _ (hasArrow_pyStrip ht)]
    simp [pyStrip_idem]
  | cons u us =>
    have hW : pyStrip (t ++ joinArrowTail (u :: us)) =
        stripLeft t ++ joinArrowTail (mapLastStr stripRight (u :: us)) := by
      simp only [pyStrip]
      rw [stripRight_join (u :: us) t (by simp)]
      exact stripLeft_append_join t _ (mapLastStr_ne_nil _ _ (by simp))
    rw [hW]
    rw [splitArrow_join (mapLastStr stripRight (u :: us)) (stripLeft t)
      (hasArrow_stripLeft ht)
      (mapLastStr_arrowFree (fun s hs => hasArrow_stripRight hs) (u :: us) hts)]
    simp only [List.map_cons]
    rw [pyStrip_stripLeft]
    rw [show (mapLastStr stripRight (u :: us)).map pyStrip = (u :: us).map pyStrip from
      map_pyStrip_mapLastStr (u :: us)]
    simp

/-! ## Python dicts and the two layout functions -/

abbrev Coord := ℚ × ℚ

/-- A Python dict keyed by node label: an association list where assignment
updates an existing key in place and otherwise appends. -/
abbrev PyDict := List (PyStr × Coord)

/-- Python `pos[n] = v`: update the entry in place if the key is present,
else append it. -/
def dictSet (d : PyDict) (k : PyStr) (v : Coord) : PyDict :=
  if d.any (fun p => decide (p.1 = k)) then
    d.map (fun p => if p.1 = k then (k, v) else p)
  else d ++ [(k, v)]

/-- Python `pos[n]` lookup (`none` when the key is absent). -/
def dictGet? (d : PyDict) (k : PyStr) : Option Coord :=
  (d.find? (fun p => decide (p.1 = k))).map Prod.snd

/-- The keys of the dict, in insertion order. -/
def dictKeys (d : PyDict) : List PyStr := d.map Prod.fst

/-- The common loop of both layout functions: `for i, n in enumerate(nodes):
pos[n] = coord(i)`, threading the dict and the running index. -/
def buildPos (coord : ℕ → Coord) : PyDict → ℕ → List PyStr → PyDict
  | d, _, [] => d
  | d, i, n :: rest => buildPos coord (dictSet d n (coord i)) (i + 1) rest

/-- Coordinates `layout_single_row` assigns to loop index `i`:
`(i * spacing, 0.0)` with `spacing = 1.0`. -/
def singleCoord (i : ℕ) : Coord := ((i : ℚ) * 1, 0)

/-- Function `layout_single_row` from `visualize_graph.py`. -/
def layout_single_row (nodes : List PyStr) : PyDict :=
  buildPos singleCoord [] 0 nodes

/-- Coordinates `layout_snake` assigns to loop index `i`: `row = i // cols`,
`col = i % cols` (Python floor division / floor modulus on ints, i.e.
`Int.fdiv` / `Int.fmod`), `x = col * spacing_x` on even rows and
`(cols - 1 - col) * spacing_x` on odd rows, `y = -(row * spacing_y)`, with
`spacing_x = 1.0` and `spacing_y = 1.2` modelled as rationals. -/
def snakeCoord (cols : ℤ) (i : ℕ) : Coord :=
  let row : ℤ := Int.fdiv (i : ℤ) cols
  let col : ℤ := Int.fmod (i : ℤ) cols
  let x : ℚ := if row % 2 = 0 then (col : ℚ) * 1 else ((cols - 1 - col : ℤ) : ℚ) * 1
  (x, -((row : ℚ) * (12 / 10)))

/-- Function `layout_snake` from `visualize_graph.py`. -/
def layout_snake (nodes : List PyStr) (cols : ℤ) : PyDict :=
  buildPos (snakeCoord cols) [] 0 nodes

/-- Function `compute_pos` from `visualize_graph.py`: single row iff the layout string
equals "single", snake otherwise. -/
def compute_pos (nodes : List PyStr) (layout : PyStr) (cols_per_row : ℤ) : PyDict :=
  if layout = "single".toList then layout_single_row nodes
  else layout_snake nodes cols_per_row

/-- Index of the last occurrence of `k` in the list, if any. -/
def lastIdx? : List PyStr → PyStr → Option ℕ
  | [], _ => none
  | a :: t, k =>
    match lastIdx? t k with
    | some j => some (j + 1)
    | none => if a = k then some 0 else none

theorem dictGet?_cons (p : PyStr × Coord) (d : PyDict) (k : PyStr) :
    dictGet? (p :: d) k = if p.1 = k then some p.2 else dictGet? d k := by
  by_cases hp : p.1 = k
  · simp [dictGet?, List.find?_cons, hp]
  · simp [dictGet?, List.find?_cons, hp]

theorem dictGet?_update (d : PyDict) (k k' : PyStr) (v : Coord) :
    dictGet? (d.map (fun p => if p.1 = k then (k, v) else p)) k' =
      if k' = k then Option.map (fun _ => v) (dictGet? d k) else dictGet? d k' := by
  induction d with
  | nil => by_cases hk : k' = k <;> simp [dictGet?, hk]
  | cons p d' ih =>
    by_cases hp : p.1 = k
    · by_cases hk : k' = k
      · subst hk
        simp only [List.map_cons, if_pos hp, dictGet?_cons, if_pos rfl]
        simp [hp]
      · have hpk' : ¬p.1 = k' := fun hcon => hk (hp ▸ hcon ▸ rfl)
        have hkv : ¬((k, v) : PyStr × Coord).1 = k' := fun hcon => hk hcon.symm
        simp only [List.map_cons, if_pos hp, dictGet?_cons, if_neg hk, if_neg hpk',
          if_neg hkv]
        rw [ih, if_neg hk]
    · by_cases hk : k' = k
      · subst hk
        simp only [List.map_cons, if_neg hp, dictGet?_cons, if_pos rfl, if_neg hp]
        rw [ih]
        simp
      · simp only [List.map_cons, if_neg hp, dictGet?_cons]
        by_cases hq : p.1 = k'
        · rw [if_pos hq, if_pos hq, if_neg hk]
        · rw [if_neg hq, if_neg hq, ih, if_neg hk]

theorem dictGet?_dictSet (d : PyDict) (k k' : PyStr) (v : Coord) :
    dictGet? (dictSet d k v) k' = if k' = k then some v else dictGet? d k' := by
  simp only [dictSet]
  by_cases h : d.any (fun p => decide (p.1 = k)) = true
  · rw [if_pos h, dictGet?_update]
    by_cases hk : k' = k
    · subst hk
      rw [if_pos rfl, if_pos rfl]
      obtain ⟨p, hp, hpk⟩ := List.any_eq_true.mp h
      cases hfind : d.find? (fun p => decide (p.1 = k')) with
      | none => exact absurd hpk (List.find?_eq_none.mp hfind p hp)
      | some q => simp [dictGet?, hfind]
    · rw [if_neg hk, if_neg hk]
  · rw [if_neg h]
    simp only [dictGet?, List.find?_append]
    by_cases hk : k' = k
    · subst hk
      have hnone : d.find? (fun p => decide (p.1 = k')) = none := by
        rw [List.find?_eq_none]
        intro p hp hcon
        exact absurd (List.any_eq_true.mpr ⟨p, hp, hcon⟩) h
      rw [hnone, if_pos rfl]
      simp [List.find?_cons]
    · rw [if_neg hk]
      have hkk : ¬k = k' := fun hcon => hk hcon.symm
      have hsingle : (List.find? (fun p => decide (p.1 = k')) [(k, v)]) = none := by
        simp [List.find?_cons, hkk]
      rw [hsingle, Option.or_none]

theorem dictGet?_buildPos (coord : ℕ → Coord) :
    ∀ (l : List PyStr) (d : PyDict) (i : ℕ) (k : PyStr),
    dictGet? (buildPos coord d i l) k =
      (match lastIdx? l k with
       | some j => some (coord (i + j))
       | none => dictGet? d k)
  | [], d, i, k => by simp [buildPos, lastIdx?]
  | a :: t, d, i, k => by
    simp only [buildPos, lastIdx?]
    rw [dictGet?_buildPos coord t (dictSet d a (coord i)) (i + 1) k]
    cases h : lastIdx? t k with
    | some j =>
      simp only [h]
      rw [show i + 1 + j = i + (j + 1) from by omega]
    | none =>
      simp only [h]
      rw [dictGet?_dictSet]
      by_cases hak : a = k
      · subst hak
        simp
      · have hka : ¬k = a := fun hcon => hak hcon.symm
        simp [hak, hka]

theorem dictKeys_dictSet (d : PyDict) (k : PyStr) (v : Coord) :
    dictKeys (dictSet d k v) =
      if k ∈ dictKeys d then dictKeys d else dictKeys d ++ [k] := by
  simp only [dictSet, dictKeys]
  by_cases h : d.any (fun p => decide (p.1 = k)) = true
  · have hmem : k ∈ d.map Prod.fst := by
      obtain ⟨p, hp, hpk⟩ := List.any_eq_true.mp h
      exact List.mem_map.mpr ⟨p, hp, of_decide_eq_true hpk⟩
    rw [if_pos h, if_pos hmem, List.map_map]
    apply List.map_congr_left
    intro p _
    by_cases hp : p.1 = k
    · simp [hp]
    · simp [hp]
  · have hnmem : k ∉ d.map Prod.fst := by
      intro hcon
      obtain ⟨p, hp, hpk⟩ := List.mem_map.mp hcon
      exact absurd (List.any_eq_true.mpr ⟨p, hp, decide_eq_true hpk⟩) h
    rw [if_neg h, if_neg hnmem, List.map_append]
    simp

theorem mem_dictKeys_buildPos (coord : ℕ → Coord) :
    ∀ (l : List PyStr) (d : PyDict) (i : ℕ) (k : PyStr),
    k ∈ dictKeys (buildPos coord d i l) ↔ (k ∈ dictKeys d ∨ k ∈ l)
  | [], d, i, k => by simp [buildPos]
  | a :: t, d, i, k => by
    simp only [buildPos]
    rw [mem_dictKeys_buildPos coord t (dictSet d a (coord i)) (i + 1) k,
      dictKeys_dictSet]
    by_cases h : a ∈ dictKeys d
    · rw [if_pos h]
      constructor
      · rintro (hd | ht)
        · exact Or.inl hd
        · exact Or.inr (by simp [ht])
      · rintro (hd | hat)
        · exact Or.inl hd
        · rcases List.mem_cons.mp hat with rfl | ht
          · exact Or.inl h
          · exact Or.inr ht
    · rw [if_neg h]
      simp only [List.mem_append, List.mem_singleton, List.mem_cons]
      tauto

theorem nodup_dictKeys_buildPos (coord : ℕ → Coord) :
    ∀ (l : List PyStr) (d : PyDict) (i : ℕ),
    (dictKeys d).Nodup → (dictKeys (buildPos coord d i l)).Nodup
  | [], _, _, hnd => hnd
  | a :: t, d, i, hnd => by
    simp only [buildPos]
    apply nodup_dictKeys_buildPos coord t (dictSet d a (coord i)) (i + 1)
    rw [dictKeys_dictSet]
    by_cases h : a ∈ dictKeys d
    · rwa [if_pos h]
    · rw [if_neg h]
      simp [List.nodup_append, hnd, h]

theorem lastIdx?_eq_none_iff : ∀ (l : List PyStr) (k : PyStr),
    lastIdx? l k = none ↔ k ∉ l
  | [], k => by simp [lastIdx?]
  | a :: t, k => by
    simp only [lastIdx?]
    cases h : lastIdx? t k with
    | some j =>
      have hkt : k ∈ t := by
        by_contra hcon
        rw [(lastIdx?_eq_none_iff t k).mpr hcon] at h
        exact absurd h (by simp)
      simp [hkt]
    | none =>
      have hkt : k ∉ t := (lastIdx?_eq_none_iff t k).mp h
      by_cases hak : a = k
      · simp [hak]
      · have hka : ¬k = a := fun hcon => hak hcon.symm
        simp [hak, hkt, hka]

theorem lastIdx?_of_nodup : ∀ (l : List PyStr), l.Nodup →
    ∀ (i : ℕ) (h : i < l.length), lastIdx? l (l.get ⟨i, h⟩) = some i
  | a :: t, hnd, 0, h => by
    have hat : a ∉ t := (List.nodup_cons.mp hnd).1
    simp only [List.get, lastIdx?]
    rw [(lastIdx?_eq_none_iff t a).mpr hat]
    simp
  | a :: t, hnd, i + 1, h => by
    have ht : t.Nodup := (List.nodup_cons.mp hnd).2
    have hlt : i < t.length := by simpa using Nat.lt_of_succ_lt_succ h
    simp only [List.get, lastIdx?]
    rw [lastIdx?_of_nodup t ht i hlt]

theorem dictGet?_layout_single_row (nodes : List PyStr) (k : PyStr) :
    dictGet? (layout_single_row nodes) k = (lastIdx? nodes k).map singleCoord := by
  rw [layout_single_row, dictGet?_buildPos]
  cases h : lastIdx? nodes k with
  | some j => simp [h]
  | none => simp [h, dictGet?]

theorem dictGet?_layout_snake (nodes : List PyStr) (cols : ℤ) (k : PyStr) :
    dictGet? (layout_snake nodes cols) k = (lastIdx? nodes k).map (snakeCoord cols) := by
  rw [layout_snake, dictGet?_buildPos]
  cases h : lastIdx? nodes k with
  | some j => simp [h]
  | none => simp [h, dictGet?]

theorem snakeCoord_of_pos (cols : ℤ) (hc : 0 < cols) (i : ℕ) :
    snakeCoord cols i =
      (if (i / cols.toNat) % 2 = 0 then ((i % cols.toNat : ℕ) : ℚ) * 1
       else ((cols : ℚ) - 1 - ((i % cols.toNat : ℕ) : ℚ)) * 1,
       -(((i / cols.toNat : ℕ) : ℚ) * (12 / 10))) := by
  lift cols to ℕ using hc.le with m
  have hfd : Int.fdiv (i : ℤ) ((m : ℕ) : ℤ) = ((i / m : ℕ) : ℤ) := (Int.ofNat_fdiv i m).symm
  have hfm : Int.fmod (i : ℤ) ((m : ℕ) : ℤ) = ((i % m : ℕ) : ℤ) := (Int.ofNat_fmod i m).symm
  have hcond : (((i / m : ℕ) : ℤ) % 2 = 0) ↔ ((i / m) % 2 = 0) := by omega
  simp only [snakeCoord, hfd, hfm, Int.toNat_natCast]
  rw [Prod.mk.injEq]
  constructor
  · by_cases hrow : (i / m) % 2 = 0
    · rw [if_pos (hcond.mpr hrow), if_pos hrow]
      norm_cast
    · rw [if_neg (fun hcon => hrow (hcond.mp hcon)), if_neg hrow]
      push_cast
      rw [← Int.ofNat_emod, Int.cast_natCast]
  · norm_cast

/-- Claim C1 (amended: positive column count, and node labels pairwise
distinct — for duplicated labels the dict keeps only the last occurrence,
see the counterexample): in the snake layout the node at index `i` sits in
row `r = i / C`, column `c = i % C`, with `x = c * spacing` on even rows,
`x = (C - 1 - c) * spacing` on odd rows, `y = -(r * 1.2)`; and `y` strictly
decreases as the row number increases. -/
theorem layout_snake_spec (nodes : List PyStr) (cols : ℤ) (hc : 0 < cols)
    (hnd : nodes.Nodup) :
    (∀ (i : ℕ) (h : i < nodes.length),
      dictGet? (layout_snake nodes cols) (nodes.get ⟨i, h⟩) =
        some (if (i / cols.toNat) % 2 = 0 then ((i % cols.toNat : ℕ) : ℚ) * 1
              else ((cols : ℚ) - 1 - ((i % cols.toNat : ℕ) : ℚ)) * 1,
              -(((i / cols.toNat : ℕ) : ℚ) * (12 / 10))))
    ∧ (∀ (i j : ℕ) (hi : i < nodes.length) (hj : j < nodes.length),
        i / cols.toNat < j / cols.toNat →
        ∀ (ci cj : Coord),
          dictGet? (layout_snake nodes cols) (nodes.get ⟨i, hi⟩) = some ci →
          dictGet? (layout_snake nodes cols) (nodes.get ⟨j, hj⟩) = some cj →
          cj.2 < ci.2) := by
  have hmain : ∀ (i : ℕ) (h : i < nodes.length),
      dictGet? (layout_snake nodes cols) (nodes.get ⟨i, h⟩) =
        some (if (i / cols.toNat) % 2 = 0 then ((i % cols.toNat : ℕ) : ℚ) * 1
              else ((cols : ℚ) - 1 - ((i % cols.toNat : ℕ) : ℚ)) * 1,
              -(((i / cols.toNat : ℕ) : ℚ) * (12 / 10))) := by
    intro i h
    rw [dictGet?_layout_snake, lastIdx?_of_nodup nodes hnd i h, Option.map_some',
      snakeCoord_of_pos cols hc i]
  refine ⟨hmain, ?_⟩
  intro i j hi hj hrow ci cj hci hcj
  rw [hmain i hi] at hci
  rw [hmain j hj] at hcj
  have hci2 : ci.2 = -(((i / cols.toNat : ℕ) : ℚ) * (12 / 10)) := by
    rw [← Option.some_inj.mp hci]
  have hcj2 : cj.2 = -(((j / cols.toNat : ℕ) : ℚ) * (12 / 10)) := by
    rw [← Option.some_inj.mp hcj]
  rw [hci2, hcj2]
  have : ((i / cols.toNat : ℕ) : ℚ) < ((j / cols.toNat : ℕ) : ℚ) := by
    exact_mod_cast hrow
  have h1210 : (0 : ℚ) < 12 / 10 := by norm_num
  exact neg_lt_neg (by nlinarith)

/-- Claim C1 counterexample: with nodes ["a", "a"] and column count 2, the
claim instance at index 0 (row 0, column 0, so x = 0 * spacing, y = 0) fails:
the dict entry for label "a" holds the coordinates of index 1, namely x = 1. -/
theorem layout_snake_dup_cex :
    ¬ dictGet? (layout_snake [['a'], ['a']] 2) ['a'] =
      some ((0 : ℚ) * 1, -((0 : ℚ) * (12 / 10))) := by
  rw [dictGet?_layout_snake]
  have hlast : lastIdx? [['a'], ['a']] ['a'] = some 1 := by decide
  rw [hlast, Option.map_some']
  intro hcon
  have := Option.some_inj.mp hcon
  have hx := congrArg Prod.fst this
  simp only [snakeCoord] at hx
  norm_num at hx
  exact absurd hx (by
    rw [show Int.fmod (1 : ℤ) 2 = 1 from rfl, show Int.fdiv (1 : ℤ) 2 = 0 from rfl]
    norm_num)

/-- Claim C3 (amended: node labels pairwise distinct — for duplicated labels
the dict keeps only the last occurrence, see the counterexample): the
single-row layout puts the node at index `i` at `(i * spacing, 0)`; moreover
every coordinate it ever assigns has `y = 0`, for any node list. -/
theorem layout_single_row_spec (nodes : List PyStr) :
    (nodes.Nodup → ∀ (i : ℕ) (h : i < nodes.length),
      dictGet? (layout_single_row nodes) (nodes.get ⟨i, h⟩) = some ((i : ℚ) * 1, 0))
    ∧ (∀ (k : PyStr) (c : Coord), dictGet? (layout_single_row nodes) k = some c →
        c.2 = 0) := by
  constructor
  · intro hnd i h
    rw [dictGet?_layout_single_row, lastIdx?_of_nodup nodes hnd i h, Option.map_some']
    rfl
  · intro k c hc
    rw [dictGet?_layout_single_row] at hc
    cases h : lastIdx? nodes k with
    | none => rw [h] at hc; exact absurd hc (by simp)
    | some j =>
      rw [h, Option.map_some'] at hc
      have := Option.some_inj.mp hc
      rw [← this]
      rfl

/-- Claim C3 counterexample: with nodes ["a", "a"], the claim instance at
index 0 (x = 0 * spacing) fails: the dict entry for label "a" holds the
coordinates of index 1, namely x = 1. -/
theorem layout_single_row_dup_cex :
    ¬ dictGet? (layout_single_row [['a'], ['a']]) ['a'] = some ((0 : ℚ) * 1, 0) := by
  rw [dictGet?_layout_single_row]
  have hlast : lastIdx? [['a'], ['a']] ['a'] = some 1 := by decide
  rw [hlast, Option.map_some']
  intro hcon
  have := Option.some_inj.mp hcon
  have hx := congrArg Prod.fst this
  simp only [singleCoord] at hx
  norm_num at hx

/-- Claim C8: both layouts return a dict keyed by node label: exactly one
entry per distinct label (keys are duplicate-free, and a label is a key iff
it occurs in the route), and the stored coordinates are those of the label's
last occurrence index. -/
theorem layouts_keyed_by_label (nodes : List PyStr) (cols : ℤ) :
    (dictKeys (layout_single_row nodes)).Nodup
    ∧ (dictKeys (layout_snake nodes cols)).Nodup
    ∧ (∀ k, k ∈ dictKeys (layout_single_row nodes) ↔ k ∈ nodes)
    ∧ (∀ k, k ∈ dictKeys (layout_snake nodes cols) ↔ k ∈ nodes)
    ∧ (∀ k, dictGet? (layout_single_row nodes) k = (lastIdx? nodes k).map singleCoord)
    ∧ (∀ k, dictGet? (layout_snake nodes cols) k =
        (lastIdx? nodes k).map (snakeCoord cols)) := by
  refine ⟨?_, ?_, ?_, ?_, ?_, ?_⟩
  · exact nodup_dictKeys_buildPos _ nodes [] 0 (by simp [dictKeys])
  · exact nodup_dictKeys_buildPos _ nodes [] 0 (by simp [dictKeys])
  · intro k
    rw [layout_single_row, mem_dictKeys_buildPos]
    simp [dictKeys]
  · intro k
    rw [layout_snake, mem_dictKeys_buildPos]
    simp [dictKeys]
  · exact dictGet?_layout_single_row nodes
  · exact dictGet?_layout_snake nodes cols

/-! ## Label throttling and the drawing guard -/

/-- Function `label_every_auto` from `visualize_graph.py`: label all nodes when
`n <= 25`, else every `max(1, n // 20)`-th. -/
def label_every_auto (n : ℕ) : ℕ := if n ≤ 25 then 1 else max 1 (n / 20)

/-- The step used by `draw_path_interactive`:
`label_every if (label_every and label_every > 0) else label_every_auto(n)`
(`None` and `0` are falsy; a nonpositive configured value also falls back). -/
def labelStep (n : ℕ) (label_every : Option ℤ) : ℕ :=
  match label_every with
  | some le => if 0 < le then le.toNat else label_every_auto n
  | none => label_every_auto n

/-- The label-building loop of `draw_path_interactive`: node `i` is labeled
with its own name when `i == 0 or i == n - 1 or i % step == 0`, else gets the
empty label. `i` is the running index, `n` the total length. -/
def pathLabelsAux (n step : ℕ) : ℕ → List PyStr → List PyStr
  | _, [] => []
  | i, nd :: rest =>
    (if i = 0 ∨ i = n - 1 ∨ i % step = 0 then nd else []) ::
      pathLabelsAux n step (i + 1) rest

/-- The full label list `draw_path_interactive` computes for the node trace. -/
def pathLabels (nodes : List PyStr) (label_every : Option ℤ) : List PyStr :=
  pathLabelsAux nodes.length (labelStep nodes.length label_every) 0 nodes

/-- Function `draw_path_interactive`, abstracted to what the claims observe: raises
(returns `.error`) on paths with fewer than 2 nodes, propagates a failure of
the HTML write, and otherwise renders the nodes with the throttled label
list and returns the output path. -/
def draw_path_interactive (nodes : List PyStr) (label_every : Option ℤ)
    (write : Except PyStr PyStr) : Except PyStr (List PyStr × PyStr) :=
  if nodes.length < 2 then .error "Path must contain at least 2 nodes.".toList
  else
    match write with
    | .error e => .error e
    | .ok out => .ok (pathLabels nodes label_every, out)

theorem pathLabelsAux_get? : ∀ (l : List PyStr) (n step i j : ℕ),
    (pathLabelsAux n step i l).get? j =
      (l.get? j).map
        (fun nd => if i + j = 0 ∨ i + j = n - 1 ∨ (i + j) % step = 0 then nd else [])
  | [], _, _, _, _ => by simp [pathLabelsAux]
  | nd :: rest, n, step, i, 0 => by
    simp [pathLabelsAux]
  | nd :: rest, n, step, i, j + 1 => by
    simp only [pathLabelsAux, List.get?_cons_succ]
    rw [pathLabelsAux_get? rest n step (i + 1) j]
    have : i + 1 + j = i + (j + 1) := by omega
    rw [this]

/-- Claim C4: the automatic label step is 1 for n ≤ 25 and max(1, n/20)
otherwise (in particular 1 for n = 10 and 5 for n = 100), and the label list
of the rendered figure always labels the first and the last node with their
names, whatever the configured step. -/
theorem label_step_spec :
    (∀ n : ℕ, label_every_auto n = if n ≤ 25 then 1 else max 1 (n / 20))
    ∧ label_every_auto 10 = 1
    ∧ label_every_auto 100 = 5
    ∧ (∀ (nodes : List PyStr) (le : Option ℤ), 2 ≤ nodes.length →
        (pathLabels nodes le).get? 0 = nodes.get? 0
        ∧ (pathLabels nodes le).get? (nodes.length - 1) =
            nodes.get? (nodes.length - 1)) := by
  refine ⟨fun n => rfl, by decide, by decide, ?_⟩
  intro nodes le hlen
  constructor
  · rw [pathLabels, pathLabelsAux_get?]
    cases h : nodes.get? 0 with
    | none => simp
    | some nd => simp
  · rw [pathLabels, pathLabelsAux_get?]
    cases h : nodes.get? (nodes.length - 1) with
    | none => simp
    | some nd =>
      rw [Option.map_some']
      congr 1
      rw [if_pos (Or.inr (Or.inl (by omega)))]

/-! ## Configuration: environment parsing and CLI overrides -/

/-- Python `str.isdigit()` for the ASCII strings this program handles:
nonempty and all decimal digits. -/
def isDigits (s : PyStr) : Bool := !s.isEmpty && s.all Char.isDigit

/-- Decimal value of an all-digit string. -/
def digitsVal (s : PyStr) : ℕ := s.foldl (fun acc c => acc * 10 + (c.toNat - 48)) 0

/-- Python `int(s)` on a stripped string: optional sign followed by digits. -/
def pyInt? (s : PyStr) : Option ℤ :=
  match s with
  | '-' :: rest => if isDigits rest then some (-(digitsVal rest : ℤ)) else none
  | '+' :: rest => if isDigits rest then some ((digitsVal rest : ℕ) : ℤ) else none
  | _ => if isDigits s then some ((digitsVal s : ℕ) : ℤ) else none

/-- Fractional value of the digit string after a decimal point. -/
def digitsFrac (s : PyStr) : ℚ :=
  s.foldr (fun c acc => (((c.toNat - 48 : ℕ) : ℚ) + acc) / 10) 0

/-- Python `float(s)` on the plain decimal forms the program cares about
(optional sign, digits, optional fractional part), modelled as a rational. -/
def pyFloat? (s : PyStr) : Option ℚ :=
  let unsigned : PyStr → Option ℚ := fun u =>
    match u.splitOn '.' with
    | [ip] => if isDigits ip then some ((digitsVal ip : ℕ) : ℚ) else none
    | [ip, fp] =>
      if (ip.isEmpty || isDigits ip) && (fp.isEmpty || isDigits fp)
          && !(ip.isEmpty && fp.isEmpty) then
        some (((digitsVal ip : ℕ) : ℚ) + digitsFrac fp)
      else none
    | _ => none
  match s with
  | '-' :: rest => (unsigned rest).map Neg.neg
  | '+' :: rest => unsigned rest
  | _ => unsigned s

/-- The process environment, as a partial map from variable name to value. -/
abbrev EnvMap := PyStr → Option PyStr

/-- Function `env_int` from `visualize_graph.py`: parse the stripped value, falling
back to the default when unset or malformed. -/
def env_int (env : EnvMap) (name : PyStr) (dflt : ℤ) : ℤ :=
  match env name with
  | none => dflt
  | some v => (pyInt? (pyStrip v)).getD dflt

/-- Function `env_float` from `visualize_graph.py` (floats modelled as rationals). -/
def env_float (env : EnvMap) (name : PyStr) (dflt : ℚ) : ℚ :=
  match env name with
  | none => dflt
  | some v => (pyFloat? (pyStrip v)).getD dflt

/-- Function `env_bool` from `visualize_graph.py`: everything but "0", "false", "no"
(case-insensitively, stripped) is true. -/
def env_bool (env : EnvMap) (name : PyStr) (dflt : Bool) : Bool :=
  match env name with
  | none => dflt
  | some v =>
    decide (pyLower (pyStrip v) ∉ ["0".toList, "false".toList, "no".toList])

/-- Function `env_str` with a string default. -/
def envStrD (env : EnvMap) (name dflt : PyStr) : PyStr := (env name).getD dflt

/-- The `Config` dataclass of `visualize_graph.py`. -/
structure Config where
  redis_url : Option PyStr
  redis_host : PyStr
  redis_port : ℤ
  redis_db : ℤ
  redis_password : Option PyStr
  redis_list_key : PyStr
  layout : PyStr
  cols_per_row : ℤ
  max_display_routes : ℤ
  label_every : Option ℤ
  node_size : ℤ
  edge_width : ℚ
  save_dir : PyStr
  open_in_browser : Bool

/-- Constructor `Config.from_env`: note the lowercasing of LAYOUT, the `max(2, ...)`
clamp on COLS_PER_ROW and NODE_SIZE, and `env_int(...) or None` (which turns
an explicit 0 into `None`) for LABEL_EVERY. -/
def Config.from_env (env : EnvMap) : Config where
  redis_url := env "REDIS_URL".toList
  redis_host := envStrD env "REDIS_HOST".toList "localhost".toList
  redis_port := env_int env "REDIS_PORT".toList 6379
  redis_db := env_int env "REDIS_DB".toList 0
  redis_password := env "REDIS_PASSWORD".toList
  redis_list_key := envStrD env "REDIS_LIST_KEY".toList "routes".toList
  layout := pyLower (envStrD env "LAYOUT".toList "snake".toList)
  cols_per_row := max 2 (env_int env "COLS_PER_ROW".toList 25)
  max_display_routes := env_int env "MAX_DISPLAY_ROUTES".toList 200
  label_every :=
    match env "LABEL_EVERY".toList with
    | none => none
    | some _ =>
      if env_int env "LABEL_EVERY".toList (-1) = 0 then none
      else some (env_int env "LABEL_EVERY".toList (-1))
  node_size := max 2 (env_int env "NODE_SIZE".toList 12)
  edge_width := max (1 / 2 : ℚ) (env_float env "EDGE_WIDTH".toList (5 / 2))
  save_dir := envStrD env "SAVE_DIR".toList ".".toList
  open_in_browser := env_bool env "OPEN_IN_BROWSER".toList true

/-- The CLI arguments of `parse_args` (each `none` when not given). -/
structure Args where
  layout : Option PyStr
  cols : Option ℤ
  label_every : Option ℤ
  save_dir : Option PyStr
  no_browser : Bool

/-- Override `if args.layout: cfg.layout = args.layout` (Python truthiness: absent or
empty string leaves the config unchanged). -/
def overrideLayout (cfg : Config) (args : Args) : Config :=
  match args.layout with
  | some l => if l ≠ [] then { cfg with layout := l } else cfg
  | none => cfg

/-- Override `if args.cols and args.cols > 1: cfg.cols_per_row = args.cols`. -/
def overrideCols (cfg : Config) (args : Args) : Config :=
  match args.cols with
  | some c => if c ≠ 0 ∧ 1 < c then { cfg with cols_per_row := c } else cfg
  | none => cfg

/-- Override `if args.label_every and args.label_every > 0: ...`. -/
def overrideLabelEvery (cfg : Config) (args : Args) : Config :=
  match args.label_every with
  | some le => if le ≠ 0 ∧ 0 < le then { cfg with label_every := some le } else cfg
  | none => cfg

/-- Override `if args.save_dir: cfg.save_dir = args.save_dir`. -/
def overrideSaveDir (cfg : Config) (args : Args) : Config :=
  match args.save_dir with
  | some s => if s ≠ [] then { cfg with save_dir := s } else cfg
  | none => cfg

/-- Override `if args.no_browser: cfg.open_in_browser = False`. -/
def overrideBrowser (cfg : Config) (args : Args) : Config :=
  if args.no_browser then { cfg with open_in_browser := false } else cfg

/-- Function `apply_cli_overrides` from `visualize_graph.py`: the five sequential
truthiness-guarded mutations. -/
def apply_cli_overrides (cfg : Config) (args : Args) : Config :=
  overrideBrowser
    (overrideSaveDir (overrideLabelEvery (overrideCols (overrideLayout cfg args) args)
      args) args) args

theorem overrideLayout_cols (cfg : Config) (args : Args) :
    (overrideLayout cfg args).cols_per_row = cfg.cols_per_row := by
  rw [overrideLayout]
  cases args.layout with
  | none => rfl
  | some l =>
    dsimp only
    split_ifs <;> rfl

theorem overrideLabelEvery_cols (cfg : Config) (args : Args) :
    (overrideLabelEvery cfg args).cols_per_row = cfg.cols_per_row := by
  rw [overrideLabelEvery]
  cases args.label_every with
  | none => rfl
  | some le =>
    dsimp only
    split_ifs <;> rfl

theorem overrideSaveDir_cols (cfg : Config) (args : Args) :
    (overrideSaveDir cfg args).cols_per_row = cfg.cols_per_row := by
  rw [overrideSaveDir]
  cases args.save_dir with
  | none => rfl
  | some s =>
    dsimp only
    split_ifs <;> rfl

theorem overrideBrowser_cols (cfg : Config) (args : Args) :
    (overrideBrowser cfg args).cols_per_row = cfg.cols_per_row := by
  rw [overrideBrowser]
  split_ifs <;> rfl

theorem apply_cli_overrides_cols_per_row (cfg : Config) (args : Args) :
    (apply_cli_overrides cfg args).cols_per_row =
      (match args.cols with
       | some c => if c ≠ 0 ∧ 1 < c then c else cfg.cols_per_row
       | none => cfg.cols_per_row) := by
  rw [apply_cli_overrides, overrideBrowser_cols, overrideSaveDir_cols,
    overrideLabelEvery_cols, overrideCols]
  cases args.cols with
  | none => exact overrideLayout_cols cfg args
  | some c =>
    dsimp only
    split_ifs with h
    · rfl
    · exact overrideLayout_cols cfg args

/-- Claim C10: `cols_per_row` is at least 2 for every configuration built by
`Config.from_env` and `apply_cli_overrides` (the env value is clamped with
`max(2, .)` and the CLI override only applies when greater than 1), so the
divisor used by `layout_snake`'s `i // cols` and `i % cols` is never zero. -/
theorem cols_per_row_ge_two (env : EnvMap) (args : Args) :
    2 ≤ (Config.from_env env).cols_per_row
    ∧ 2 ≤ (apply_cli_overrides (Config.from_env env) args).cols_per_row
    ∧ (apply_cli_overrides (Config.from_env env) args).cols_per_row ≠ 0 := by
  have h1 : 2 ≤ (Config.from_env env).cols_per_row := le_max_left _ _
  have h2 : 2 ≤ (apply_cli_overrides (Config.from_env env) args).cols_per_row := by
    rw [apply_cli_overrides_cols_per_row]
    cases hc : args.cols with
    | none => exact h1
    | some c =>
      dsimp only
      split_ifs with h
      · omega
      · exact h1
  exact ⟨h1, h2, by omega⟩

/-- Claim C9: `compute_pos` picks the single-row layout exactly when the
layout string is "single" and silently falls back to the snake layout on any
other string; the layout string coming from the environment is the
lowercased value of LAYOUT (default "snake"). -/
theorem compute_pos_selection (nodes : List PyStr) (layout : PyStr) (cols : ℤ)
    (env : EnvMap) :
    (layout = "single".toList → compute_pos nodes layout cols = layout_single_row nodes)
    ∧ (layout ≠ "single".toList →
        compute_pos nodes layout cols = layout_snake nodes cols)
    ∧ (Config.from_env env).layout = pyLower ((env "LAYOUT".toList).getD "snake".toList) := by
  refine ⟨fun h => by rw [compute_pos, if_pos h], fun h => by rw [compute_pos, if_neg h],
    rfl⟩

/-! ## The route-selection prompt -/

theorem toLower_of_digit {c : Char} (h : c.isDigit = true) : c.toLower = c := by
  simp only [Char.isDigit, Bool.and_eq_true, decide_eq_true_eq] at h
  obtain ⟨h1, h2⟩ := h
  rw [Char.toLower, if_neg]
  rintro ⟨h3, h4⟩
  have hv : c.val.toNat ≤ 57 := UInt32.toNat_le_of_le (by norm_num [UInt32.size]) h2
  have hcn : Char.toNat c = c.val.toNat := rfl
  omega

theorem pyLower_eq_self_of_digits {s : PyStr} (h : isDigits s = true) :
    pyLower s = s := by
  simp only [isDigits, Bool.and_eq_true, List.all_eq_true] at h
  simp only [pyLower]
  apply List.map_congr_left ?_ |>.trans (List.map_id s)
  intro c hc
  exact toLower_of_digit (h.2 c hc)

/-- The prompt loop of `choose_single_route`: reads operator input lines one
at a time; "q"/"quit"/"exit" (case-insensitive, stripped) cancels with the
empty string, a digit string in `[1, shown]` selects that route (1-based),
anything else re-prompts. `none` models running out of input (the Python
`input()` call would raise `EOFError`). -/
def chooseLoop (route_lines : List PyStr) (shown : ℤ) : List PyStr → Option PyStr
  | [] => none
  | inp :: rest =>
    let choice := pyStrip inp
    if pyLower choice = "q".toList ∨ pyLower choice = "quit".toList ∨
        pyLower choice = "exit".toList then
      some []
    else if isDigits choice = false then
      chooseLoop route_lines shown rest
    else if 1 ≤ (digitsVal choice : ℤ) ∧ (digitsVal choice : ℤ) ≤ shown then
      some (route_lines.getD (digitsVal choice - 1) [])
    else chooseLoop route_lines shown rest

/-- Function `choose_single_route` from `visualize_graph.py`: caps the selectable
range at `shown = min(total, cap)`, returns the empty string right away when
the route list is empty, and otherwise runs the prompt loop. -/
def choose_single_route (route_lines : List PyStr) (cap : ℤ)
    (inputs : List PyStr) : Option PyStr :=
  let total : ℤ := route_lines.length
  let shown : ℤ := min total cap
  if total = 0 then some []
  else chooseLoop route_lines shown inputs

/-- Claim C6: with a non-empty route list, entering a 1-based index `i` with
`1 ≤ i ≤ min(len(route_lines), cap)` returns `route_lines[i-1]` (the index
is in bounds); non-numeric, unrecognized or out-of-range input re-prompts on
the remaining input; the quit token "q" returns the empty string, as does an
empty route list. -/
theorem choose_single_route_spec :
    (∀ (lines : List PyStr) (cap : ℤ) (s : PyStr) (rest : List PyStr) (i : ℕ),
      lines ≠ [] → isDigits (pyStrip s) = true → digitsVal (pyStrip s) = i →
      1 ≤ i → (i : ℤ) ≤ min (lines.length : ℤ) cap →
      choose_single_route lines cap (s :: rest) = some (lines.getD (i - 1) [])
        ∧ i - 1 < lines.length)
    ∧ (∀ (lines : List PyStr) (cap : ℤ) (s : PyStr) (rest : List PyStr),
        lines ≠ [] →
        ¬(pyLower (pyStrip s) = "q".toList ∨ pyLower (pyStrip s) = "quit".toList ∨
          pyLower (pyStrip s) = "exit".toList) →
        (isDigits (pyStrip s) = false ∨
          ¬(1 ≤ (digitsVal (pyStrip s) : ℤ) ∧
            (digitsVal (pyStrip s) : ℤ) ≤ min (lines.length : ℤ) cap)) →
        choose_single_route lines cap (s :: rest) = choose_single_route lines cap rest)
    ∧ (∀ (lines : List PyStr) (cap : ℤ) (rest : List PyStr),
        choose_single_route lines cap ("q".toList :: rest) = some [])
    ∧ (∀ (cap : ℤ) (inputs : List PyStr),
        choose_single_route [] cap inputs = some []) := by
  have hne_total : ∀ (lines : List PyStr), lines ≠ [] → ((lines.length : ℤ) ≠ 0) := by
    intro lines hne
    have := List.length_pos.mpr hne
    omega
  refine ⟨?_, ?_, ?_, ?_⟩
  · intro lines cap s rest i hne hdig hval h1 h2
    have hq : ¬(pyLower (pyStrip s) = "q".toList ∨ pyLower (pyStrip s) = "quit".toList ∨
        pyLower (pyStrip s) = "exit".toList) := by
      rw [pyLower_eq_self_of_digits hdig]
      rintro (hcon | hcon | hcon) <;> rw [hcon] at hdig <;> exact absurd hdig (by decide)
    constructor
    · simp only [choose_single_route]
      rw [if_neg (hne_total lines hne)]
      simp only [chooseLoop]
      rw [if_neg hq, if_neg (by rw [hdig]; simp), if_pos (by rw [hval]; exact ⟨by omega, h2⟩),
        hval]
    · have : (i : ℤ) ≤ (lines.length : ℤ) := le_trans h2 (min_le_left _ _)
      omega
  · intro lines cap s rest hne hq hbad
    have hnz := hne_total lines hne
    simp only [choose_single_route, if_neg hnz]
    simp only [chooseLoop]
    rw [if_neg hq]
    rcases hbad with hd | hb
    · rw [if_pos hd]
    · by_cases hd : isDigits (pyStrip s) = false
      · rw [if_pos hd]
      · rw [if_neg hd, if_neg hb]
  · intro lines cap rest
    by_cases hne : lines = []
    · subst hne
      simp [choose_single_route]
    · simp only [choose_single_route]
      rw [if_neg (hne_total lines hne)]
      simp only [chooseLoop]
      rw [if_pos (by left; decide)]
  · intro cap inputs
    simp [choose_single_route]

/-! ## The top-level flow: `visualize_once` and the interactive loop -/

/-- Decimal rendering of a natural number. -/
def natRepr (n : ℕ) : PyStr := Nat.toDigits 10 n

/-- Decimal rendering of an integer, as Python's `str`. -/
def intRepr (i : ℤ) : PyStr :=
  if i < 0 then '-' :: natRepr i.natAbs else natRepr i.toNat

/-- Console / side-effect events of one visualization attempt. -/
inductive Event where
  | printed (line : PyStr)
  | layoutComputed
  | renderAttempt
  | browserOpen
  deriving DecidableEq

/-- The outside world one `visualize_once` call interacts with: the outcome
of the Redis connection, of the `llen`/`lrange` read (total and the
retrieved route lines), the operator's input lines, the outcome of writing
the HTML file, and of opening the browser. -/
structure World where
  connect : Except PyStr Unit
  read : Except PyStr (ℤ × List PyStr)
  inputs : List PyStr
  write : Except PyStr PyStr
  browser : Except PyStr Unit

/-- The "[Info] Loaded ..." console line of `visualize_once`. -/
def infoLine (cfg : Config) (total : ℤ) : PyStr :=
  "[Info] Loaded ".toList ++ intRepr total ++ " route(s) from list '".toList ++
  cfg.redis_list_key ++ "'. Showing up to ".toList ++
  intRepr cfg.max_display_routes ++ ".".toList

/-- Function `visualize_once` from `visualize_graph.py`, as the list of events it
produces. `Except.error ()` models the one exception that escapes it: the
`EOFError` of an `input()` call at end of input (caught by `repl`). Each of
the three guarded operations (connect, read, render/save) catches its own
exception, prints a tagged message and returns. -/
def visualize_once (cfg : Config) (w : World) : Except Unit (List Event) :=
  match w.connect with
  | .error e => .ok [.printed ("[Error] Could not connect to Redis: ".toList ++ e)]
  | .ok _ =>
    match w.read with
    | .error e =>
      .ok [.printed ("[Error] Redis error while reading list '".toList ++
        cfg.redis_list_key ++ "': ".toList ++ e)]
    | .ok (total, route_lines) =>
      let info := Event.printed (infoLine cfg total)
      if route_lines.isEmpty then
        .ok [info, .printed ("No routes found in Redis list '".toList ++
          cfg.redis_list_key ++ "'.".toList)]
      else
        match choose_single_route route_lines cfg.max_display_routes w.inputs with
        | none => .error ()
        | some chosen =>
          if chosen.isEmpty then
            .ok [info, .printed "No route selected. Goodbye.".toList]
          else
            let nodes := extract_nodes chosen
            if nodes.length < 2 then
              .ok [info, .printed ("[Warn] Selected route is invalid/too short: '".toList
                ++ chosen ++ "'".toList)]
            else
              let _pos := compute_pos nodes cfg.layout cfg.cols_per_row
              match draw_path_interactive nodes cfg.label_every w.write with
              | .error e =>
                .ok [info, .layoutComputed, .renderAttempt,
                  .printed ("[Error] Failed to render/save visualization: ".toList ++ e)]
              | .ok (_labels, out) =>
                .ok ([info, .layoutComputed, .renderAttempt,
                  .printed ("[Saved] ".toList ++ out)] ++
                  (if cfg.open_in_browser then
                    match w.browser with
                    | .ok _ => [Event.browserOpen]
                    | .error e =>
                      [Event.browserOpen,
                        .printed ("[Warn] Could not open browser automatically: ".toList
                          ++ e)]
                  else []))

/-- The tail of `repl`: each round is the command typed at the continue
prompt together with the world of the next attempt; end of input (the
`EOFError`/`KeyboardInterrupt` caught by `repl`) ends the loop, as does an
escaped `EOFError` from inside `visualize_once`. -/
def replRounds (cfg : Config) : List (PyStr × World) → List Event
  | [] => []
  | (cmd, w) :: rest =>
    if pyLower (pyStrip cmd) = "exit".toList then []
    else
      match visualize_once cfg w with
      | .error _ => []
      | .ok evs => evs ++ replRounds cfg rest

/-- Function `repl` from `visualize_graph.py`: one initial attempt, then the loop. -/
def repl (cfg : Config) (w₀ : World) (rounds : List (PyStr × World)) : List Event :=
  match visualize_once cfg w₀ with
  | .error _ => []
  | .ok evs => evs ++ replRounds cfg rounds

/-- Claim C5: a chosen route that parses to fewer than 2 nodes makes
`visualize_once` print the "[Warn] ... invalid/too short" line and return,
with no layout computation or render attempt among its events; conversely,
a layout/render event can only occur when the chosen route parses to at
least 2 nodes. -/
theorem visualize_once_short_route (cfg : Config) (w : World) :
    (∀ (total : ℤ) (lines : List PyStr) (chosen : PyStr),
      w.connect = .ok () → w.read = .ok (total, lines) → lines ≠ [] →
      choose_single_route lines cfg.max_display_routes w.inputs = some chosen →
      chosen ≠ [] → (extract_nodes chosen).length < 2 →
      visualize_once cfg w =
        .ok [.printed (infoLine cfg total),
          .printed ("[Warn] Selected route is invalid/too short: '".toList ++ chosen
            ++ "'".toList)]
        ∧ Event.layoutComputed ∉ [Event.printed (infoLine cfg total),
            Event.printed ("[Warn] Selected route is invalid/too short: '".toList
              ++ chosen ++ "'".toList)]
        ∧ Event.renderAttempt ∉ [Event.printed (infoLine cfg total),
            Event.printed ("[Warn] Selected route is invalid/too short: '".toList
              ++ chosen ++ "'".toList)])
    ∧ (∀ evs : List Event, visualize_once cfg w = .ok evs →
        (Event.layoutComputed ∈ evs ∨ Event.renderAttempt ∈ evs) →
        ∃ (total : ℤ) (lines : List PyStr) (chosen : PyStr),
          w.read = .ok (total, lines) ∧
          choose_single_route lines cfg.max_display_routes w.inputs = some chosen ∧
          2 ≤ (extract_nodes chosen).length) := by
  constructor
  · intro total lines chosen hc hr hlne hch hchne hshort
    have hle : lines.isEmpty = false := by simpa using hlne
    have hche : chosen.isEmpty = false := by simpa using hchne
    refine ⟨?_, by simp, by simp⟩
    simp only [visualize_once, hc, hr, hle, hch, hche, Bool.false_eq_true, if_false,
      if_pos hshort]
  · intro evs hevs hmem
    rcases hcc : w.connect with e | u
    · simp only [visualize_once, hcc] at hevs
      cases hevs
      simp at hmem
    · rcases hrr : w.read with e | p
      · simp only [visualize_once, hcc, hrr] at hevs
        cases hevs
        simp at hmem
      · obtain ⟨total, lines⟩ := p
        by_cases hle : lines.isEmpty = true
        · simp only [visualize_once, hcc, hrr, hle, if_true] at hevs
          cases hevs
          simp at hmem
        · rcases hch : choose_single_route lines cfg.max_display_routes w.inputs
            with _ | chosen
          · simp [visualize_once, hcc, hrr, hle, hch] at hevs
          · by_cases hche : chosen.isEmpty = true
            · simp only [visualize_once, hcc, hrr, hch, hche, if_true] at hevs
              rw [if_neg (by simp [hle])] at hevs
              cases hevs
              simp at hmem
            · by_cases hshort : (extract_nodes chosen).length < 2
              · simp only [visualize_once, hcc, hrr, hch] at hevs
                rw [if_neg (by simp [hle]), if_neg (by simp [hche]),
                  if_pos hshort] at hevs
                cases hevs
                simp at hmem
              · exact ⟨total, lines, chosen, rfl, hch, by omega⟩

/-- Claim C7: a connectivity error, a read error and a render/save error are
each caught inside `visualize_once`, reported as one tagged "[Error] ..."
console line, and `visualize_once` returns normally (an `.ok` event list);
after any normally-returning attempt the interactive loop goes on to the
next prompt and, unless the operator types "exit", to the next attempt. -/
theorem visualize_once_error_handling :
    (∀ (cfg : Config) (w : World) (e : PyStr), w.connect = .error e →
      visualize_once cfg w =
        .ok [.printed ("[Error] Could not connect to Redis: ".toList ++ e)])
    ∧ (∀ (cfg : Config) (w : World) (e : PyStr), w.connect = .ok () →
        w.read = .error e →
        visualize_once cfg w =
          .ok [.printed ("[Error] Redis error while reading list '".toList ++
            cfg.redis_list_key ++ "': ".toList ++ e)])
    ∧ (∀ (cfg : Config) (w : World) (total : ℤ) (lines : List PyStr)
        (chosen e : PyStr),
        w.connect = .ok () → w.read = .ok (total, lines) → lines ≠ [] →
        choose_single_route lines cfg.max_display_routes w.inputs = some chosen →
        chosen ≠ [] → 2 ≤ (extract_nodes chosen).length → w.write = .error e →
        visualize_once cfg w =
          .ok [.printed (infoLine cfg total), .layoutComputed, .renderAttempt,
            .printed ("[Error] Failed to render/save visualization: ".toList ++ e)])
    ∧ (∀ (cfg : Config) (w : World) (evs : List Event) (cmd : PyStr) (w' : World)
        (rounds : List (PyStr × World)),
        visualize_once cfg w = .ok evs →
        repl cfg w ((cmd, w') :: rounds) =
          evs ++ (if pyLower (pyStrip cmd) = "exit".toList then []
            else
              match visualize_once cfg w' with
              | .error _ => []
              | .ok evs' => evs' ++ replRounds cfg rounds)) := by
  refine ⟨?_, ?_, ?_, ?_⟩
  · intro cfg w e hc
    simp only [visualize_once, hc]
  · intro cfg w e hc hr
    simp only [visualize_once, hc, hr]
  · intro cfg w total lines chosen e hc hr hlne hch hchne hlen hw
    have hle : lines.isEmpty = false := by simpa using hlne
    have hche : chosen.isEmpty = false := by simpa using hchne
    have hdraw : draw_path_interactive (extract_nodes chosen) cfg.label_every w.write =
        .error e := by
      rw [draw_path_interactive.eq_def, if_neg (by omega), hw]
    simp only [visualize_once, hc, hr, hle, hch, hche, Bool.false_eq_true, if_false,
      hdraw]
    rw [if_neg (by omega)]
  · intro cfg w evs cmd w' rounds hok
    simp only [repl, hok, replRounds]

theorem extract_nodes_sample :
    extract_nodes "Path: 1 -> 2 -> 3".toList = ["1".toList, "2".toList, "3".toList] := by
  decide

/-! ## Concrete witnesses -/

theorem layout_snake_spec_witness :
    (0 : ℤ) < 2 ∧ ([['a'], ['b'], ['c']] : List PyStr).Nodup ∧
    dictGet? (layout_snake [['a'], ['b'], ['c']] 2) ['c'] =
      some (if (2 / (2 : ℤ).toNat) % 2 = 0 then ((2 % (2 : ℤ).toNat : ℕ) : ℚ) * 1
            else (((2 : ℤ) : ℚ) - 1 - ((2 % (2 : ℤ).toNat : ℕ) : ℚ)) * 1,
            -(((2 / (2 : ℤ).toNat : ℕ) : ℚ) * (12 / 10))) :=
  ⟨by decide, by decide,
    (layout_snake_spec [['a'], ['b'], ['c']] 2 (by decide) (by decide)).1 2 (by decide)⟩

theorem extract_nodes_pathLine_witness :
    pyLower "PATH:".toList = "path:".toList ∧
    hasArrow " 1 ".toList = false ∧
    (∀ u ∈ [" 2".toList, "3 ".toList], hasArrow u = false) ∧
    extract_nodes ("PATH:".toList ++ (" 1 ".toList ++
        joinArrowTail [" 2".toList, "3 ".toList])) =
      (([" 1 ".toList, " 2".toList, "3 ".toList]).map pyStrip).filter
        (fun p => !p.isEmpty) :=
  ⟨by decide, by decide, by decide,
    extract_nodes_pathLine "PATH:".toList " 1 ".toList [" 2".toList, "3 ".toList]
      (by decide) (by decide) (by decide)⟩

theorem layout_single_row_spec_witness :
    ([['a'], ['b']] : List PyStr).Nodup ∧
    dictGet? (layout_single_row [['a'], ['b']]) ['b'] = some (((1 : ℕ) : ℚ) * 1, 0) :=
  ⟨by decide, (layout_single_row_spec [['a'], ['b']]).1 (by decide) 1 (by decide)⟩

theorem label_step_spec_witness :
    2 ≤ ([['a'], ['b'], ['c']] : List PyStr).length ∧
    ((pathLabels [['a'], ['b'], ['c']] none).get? 0 =
        ([['a'], ['b'], ['c']] : List PyStr).get? 0
      ∧ (pathLabels [['a'], ['b'], ['c']] none).get?
          (([['a'], ['b'], ['c']] : List PyStr).length - 1) =
        ([['a'], ['b'], ['c']] : List PyStr).get?
          (([['a'], ['b'], ['c']] : List PyStr).length - 1)) :=
  ⟨by decide, label_step_spec.2.2.2 [['a'], ['b'], ['c']] none (by decide)⟩

theorem visualize_once_short_route_witness :
    choose_single_route ["Path: A".toList]
        (Config.from_env (fun _ => none)).max_display_routes ["1".toList] =
      some "Path: A".toList
    ∧ (extract_nodes "Path: A".toList).length < 2
    ∧ visualize_once (Config.from_env (fun _ => none))
        ⟨.ok (), .ok (1, ["Path: A".toList]), ["1".toList], .ok "out".toList, .ok ()⟩ =
      .ok [.printed (infoLine (Config.from_env (fun _ => none)) 1),
        .printed ("[Warn] Selected route is invalid/too short: '".toList ++
          "Path: A".toList ++ "'".toList)] :=
  ⟨by decide, by decide,
    ((visualize_once_short_route (Config.from_env (fun _ => none))
        ⟨.ok (), .ok (1, ["Path: A".toList]), ["1".toList], .ok "out".toList, .ok ()⟩).1
      1 ["Path: A".toList] "Path: A".toList rfl rfl (by decide) (by decide) (by decide)
      (by decide)).1⟩

theorem choose_single_route_spec_witness :
    (isDigits (pyStrip " 2 ".toList) = true ∧ digitsVal (pyStrip " 2 ".toList) = 2 ∧
      choose_single_route ["r1".toList, "r2".toList, "r3".toList] 5 [" 2 ".toList] =
        some (["r1".toList, "r2".toList, "r3".toList].getD (2 - 1) []))
    ∧ choose_single_route ["r1".toList] 5 ["x7".toList, "q".toList] = some []
    ∧ choose_single_route [] 7 ["1".toList] = some [] :=
  ⟨⟨by decide, by decide,
    (choose_single_route_spec.1 ["r1".toList, "r2".toList, "r3".toList] 5 " 2 ".toList
      [] 2 (by decide) (by decide) (by decide) (by decide) (by decide)).1⟩,
    (choose_single_route_spec.2.1 ["r1".toList] 5 "x7".toList ["q".toList]
      (by decide) (by decide) (Or.inl (by decide))).trans
      (choose_single_route_spec.2.2.1 ["r1".toList] 5 []),
    choose_single_route_spec.2.2.2 7 ["1".toList]⟩

theorem visualize_once_error_handling_witness :
    visualize_once (Config.from_env (fun _ => none))
        ⟨.error "boom".toList, .ok (0, []), [], .ok [], .ok ()⟩ =
      .ok [.printed ("[Error] Could not connect to Redis: ".toList ++ "boom".toList)]
    ∧ visualize_once (Config.from_env (fun _ => none))
        ⟨.ok (), .error "readfail".toList, [], .ok [], .ok ()⟩ =
      .ok [.printed ("[Error] Redis error while reading list '".toList ++
        (Config.from_env (fun _ => none)).redis_list_key ++ "': ".toList ++
        "readfail".toList)]
    ∧ (choose_single_route ["Path: A -> B".toList]
          (Config.from_env (fun _ => none)).max_display_routes ["1".toList] =
        some "Path: A -> B".toList
      ∧ 2 ≤ (extract_nodes "Path: A -> B".toList).length
      ∧ visualize_once (Config.from_env (fun _ => none))
          ⟨.ok (), .ok (1, ["Path: A -> B".toList]), ["1".toList],
            .error "disk".toList, .ok ()⟩ =
        .ok [.printed (infoLine (Config.from_env (fun _ => none)) 1), .layoutComputed,
          .renderAttempt,
          .printed ("[Error] Failed to render/save visualization: ".toList ++
            "disk".toList)])
    ∧ repl (Config.from_env (fun _ => none))
        ⟨.error "boom".toList, .ok (0, []), [], .ok [], .ok ()⟩
        [("go".toList, ⟨.ok (), .error "readfail".toList, [], .ok [], .ok ()⟩)] =
      [Event.printed ("[Error] Could not connect to Redis: ".toList ++ "boom".toList)]
        ++ (if pyLower (pyStrip "go".toList) = "exit".toList then []
          else
            match visualize_once (Config.from_env (fun _ => none))
              ⟨.ok (), .error "readfail".toList, [], .ok [], .ok ()⟩ with
            | .error _ => []
            | .ok evs' => evs' ++ replRounds (Config.from_env (fun _ => none)) []) :=
  ⟨visualize_once_error_handling.1 (Config.from_env (fun _ => none))
      ⟨.error "boom".toList, .ok (0, []), [], .ok [], .ok ()⟩ "boom".toList rfl,
    visualize_once_error_handling.2.1 (Config.from_env (fun _ => none))
      ⟨.ok (), .error "readfail".toList, [], .ok [], .ok ()⟩ "readfail".toList rfl rfl,
    ⟨by decide, by decide,
      visualize_once_error_handling.2.2.1 (Config.from_env (fun _ => none))
        ⟨.ok (), .ok (1, ["Path: A -> B".toList]), ["1".toList],
          .error "disk".toList, .ok ()⟩
        1 ["Path: A -> B".toList] "Path: A -> B".toList "disk".toList rfl rfl
        (by decide) (by decide) (by decide) (by decide) rfl⟩,
    visualize_once_error_handling.2.2.2 (Config.from_env (fun _ => none))
      ⟨.error "boom".toList, .ok (0, []), [], .ok [], .ok ()⟩
      [Event.printed ("[Error] Could not connect to Redis: ".toList ++ "boom".toList)]
      "go".toList ⟨.ok (), .error "readfail".toList, [], .ok [], .ok ()⟩ [] rfl⟩

theorem compute_pos_selection_witness :
    ("snake".toList : PyStr) ≠ "single".toList ∧
    compute_pos [['a']] "snake".toList 25 = layout_snake [['a']] 25 ∧
    compute_pos [['a']] "single".toList 25 = layout_single_row [['a']] :=
  ⟨by decide,
    (compute_pos_selection [['a']] "snake".toList 25 (fun _ => none)).2.1 (by decide),
    (compute_pos_selection [['a']] "single".toList 25 (fun _ => none)).1 rfl⟩

theorem extract_nodes_sample_tolerant :
    extract_nodes "  path:  a  ->->  b ".toList = ["a".toList, "b".toList] := by
  decide

theorem extract_nodes_sample_padded :
    extract_nodes (pathLine " 1 ".toList [" 2".toList, "3 ".toList]) =
      ["1".toList, "2".toList, "3".toList] := by decide

end RoadNet
